import Mathlib

/-!
Shallow embedding of the timeline compositor and capture pipeline of the
scene-to-video generator (source file `src/unnamed/part_000`, a React client
page).  Times are modelled as rationals (seconds), sample rates as naturals,
encoded chunks by their byte sizes.  The embedded functions mirror the
source: `DURATION_MIN`/`DURATION_MAX` (lines 33-34), the per-scene duration
resolution and audio scheduling loop of `generateVideo` (lines 431-467), the
total-duration reduce (lines 469-472), the `renderFrame` segment scan
(lines 523-557), the chunk collection and blob assembly (lines 499-517), and
the upload-time audio decoding handler `handleAudioUpload` (lines 175-200).
-/

deriving instance DecidableEq for Except

namespace VideoGen

/-- Source line 33: `const DURATION_MIN = 1`. -/
def DURATION_MIN : ℚ := 1

/-- Source line 34: `const DURATION_MAX = 30`. -/
def DURATION_MAX : ℚ := 30

/-- Source line 431: the fixed lead-in added to `audioCtx.currentTime`
before the first scheduled audio start (`+ 0.4` seconds). -/
def LEAD_IN : ℚ := 2/5

/-- An uploaded/recorded audio array buffer, as seen through the decode
collaborator: either it decodes to a buffer of a known duration (seconds)
or decoding fails. -/
inductive AudioData where
  | ok (duration : ℚ)
  | bad
deriving DecidableEq, Repr

/-- The decode collaborator (`audioCtx.decodeAudioData`): succeeds with the
decoded duration or rejects. -/
def decodeAudioData : AudioData → Except Unit ℚ
  | .ok d => .ok d
  | .bad => .error ()

/-- A scene (source type `Scene`, lines 8-18), restricted to the fields the
timeline core reads: `duration` (requested seconds), presence of a bound
image (`imageDataUrl` truthy), and the optional audio array buffer. -/
structure Scene where
  id : ℕ
  duration : ℚ
  hasImage : Bool
  audio : Option AudioData
deriving DecidableEq, Repr

/-- An audio buffer placed on the bus for one segment: either the decoded
real buffer, or the synthesized silent buffer created by
`audioCtx.createBuffer(1, Math.max(1, Math.floor(duration * sampleRate)),
sampleRate)` (source lines 449-453). -/
inductive SchedBuffer where
  | real (duration : ℚ)
  | silent (channels : ℕ) (frames : ℕ) (sampleRate : ℕ)
deriving DecidableEq, Repr

/-- Length of a scheduled buffer in seconds (Web Audio:
`AudioBuffer.duration = length / sampleRate`). -/
def SchedBuffer.seconds : SchedBuffer → ℚ
  | .real d => d
  | .silent _ frames sr => (frames : ℚ) / (sr : ℚ)

/-- A resolved segment (source type `SceneMeta`, lines 26-31, extended with
the buffer the loop schedules for it). -/
structure SceneMeta where
  scene : Scene
  duration : ℚ
  audioLength : ℚ
  buffer : SchedBuffer
deriving DecidableEq, Repr

/-- Source line 436: `let duration = Math.max(scene.duration, DURATION_MIN)`,
the value that enters the effective-duration computation. -/
def baseDuration (s : Scene) : ℚ := max s.duration DURATION_MIN

/-- One iteration of the resolution loop of `generateVideo`
(source lines 433-454): clamp the requested duration from below, then either
decode the attached audio (extending the duration to cover it) or synthesize
a silent mono buffer of `max(1, floor(duration * sampleRate))` frames.
A decode rejection propagates as an error (it throws inside the `try`). -/
def resolveScene (sr : ℕ) (s : Scene) : Except Unit SceneMeta :=
  let dur := baseDuration s
  match s.audio with
  | some ad =>
    match decodeAudioData ad with
    | .ok d => .ok ⟨s, max dur d, d, .real d⟩
    | .error e => .error e
  | none => .ok ⟨s, dur, dur, .silent 1 (max 1 (Int.toNat ⌊dur * (sr : ℚ)⌋)) sr⟩

/-- The whole resolution loop over the image-filtered scene list, in order;
the first decode failure aborts the loop (the thrown rejection leaves the
`for` loop and reaches the surrounding `catch`). -/
def resolveScenes (sr : ℕ) : List Scene → Except Unit (List SceneMeta)
  | [] => .ok []
  | s :: rest =>
    match resolveScene sr s with
    | .error e => .error e
    | .ok m =>
      match resolveScenes sr rest with
      | .error e => .error e
      | .ok ms => .ok (m :: ms)

/-- Source lines 469-472: `metas.reduce((acc, meta) => acc + meta.duration, 0)`. -/
def totalTimelineDuration (metas : List SceneMeta) : ℚ :=
  metas.foldl (fun acc m => acc + m.duration) 0

/-- The successive values of `audioTimelineCursor` at which
`source.start(audioTimelineCursor)` is called (source lines 431, 459, 466):
the cursor starts at the given time and advances by each segment's
effective duration. -/
def audioCursors : ℚ → List SceneMeta → List ℚ
  | _, [] => []
  | t, m :: rest => t :: audioCursors (t + m.duration) rest

/-- Segment start offsets relative to the timeline origin: the cursor values
with the origin at zero.  The same cumulative sums are recomputed by the
render loop's `accumulated` variable (source lines 525-537). -/
def startOffsets (metas : List SceneMeta) : List ℚ := audioCursors 0 metas

/-- The cumulative start offset of segment `i`: sum of the effective
durations of all prior segments. -/
def offsetAt (metas : List SceneMeta) (i : ℕ) : ℚ :=
  ((metas.take i).map (fun m => m.duration)).sum

/-- The linear scan of the render loop (source lines 529-538): walk the
segments accumulating start offsets; return the first segment whose
half-open interval `[metaStart, metaStart + duration)` contains `elapsed`,
with its start offset, or `none` if no interval matches. -/
def scanSelect (e : ℚ) : ℚ → List SceneMeta → Option (SceneMeta × ℚ)
  | _, [] => none
  | a, m :: rest =>
    if a ≤ e ∧ e < a + m.duration then some (m, a)
    else scanSelect e (a + m.duration) rest

/-- The segment-selection core of `renderFrame` (source lines 523-544):
defaults to the last segment with start `total - lastDuration`, lets the
scan override it, and computes
`sceneElapsed = min(duration, max(0, elapsed - currentStart))`.
Returns `(selected segment, its start, sceneElapsed)`; `none` only on an
empty segment list (where the source would fault on `metas[metas.length-1]`,
a state `generateVideo` never reaches). -/
def renderFrameSelect (metas : List SceneMeta) (total e : ℚ) :
    Option (SceneMeta × ℚ × ℚ) :=
  match metas.getLast? with
  | none => none
  | some lastM =>
    match scanSelect e 0 metas with
    | some (m, s) => some (m, s, min m.duration (max 0 (e - s)))
    | none =>
      some (lastM, total - lastM.duration,
        min lastM.duration (max 0 (e - (total - lastM.duration))))

/-- Error outcomes of `generateVideo`: the early no-image return
(source lines 407-412) and the catch-all error path (lines 570-576). -/
inductive GenError where
  | noRenderableScenes
  | generateFailed
deriving DecidableEq, Repr

/-- The final artifact: the blob assembled from the recorded chunks
(source line 513), identified by its byte size. -/
structure Artifact where
  size : ℕ
deriving DecidableEq, Repr

/-- Resource/lifecycle events of a render pass, used to observe how far a
run progressed before returning. -/
inductive GenEvent where
  | audioContextCreated
  | recorderStarted
  | recorderStopped
  | audioContextClosed
deriving DecidableEq, Repr

/-- Size of the blob assembled on `recorder.onstop`: `ondataavailable`
pushes only chunks with `size > 0` (source lines 500-504), and the blob is
their concatenation (line 513). -/
def blobSize (chunks : List ℕ) : ℕ :=
  (chunks.filter (fun c => 0 < c)).sum

/-- The control flow of `generateVideo` (source lines 400-577), with the
host-supplied encoded chunk sizes as a parameter.  The canvas is assumed
available (its absence is a host concern checked before the scene filter).
Filtering empty scenes returns the early error before any resource is
acquired; a decode rejection or a non-positive total throws to the catch
block after the audio context was created; otherwise the render loop runs
to completion, the recorder is stopped and the chunk blob is returned with
a success status. -/
def generateVideo (sr : ℕ) (scenes : List Scene) (chunks : List ℕ) :
    Except GenError Artifact × List GenEvent :=
  let ready := scenes.filter (fun s => s.hasImage)
  if ready.isEmpty then (.error .noRenderableScenes, [])
  else
    match resolveScenes sr ready with
    | .error _ => (.error .generateFailed, [.audioContextCreated])
    | .ok metas =>
      if totalTimelineDuration metas ≤ 0 then
        (.error .generateFailed, [.audioContextCreated])
      else
        (.ok ⟨blobSize chunks⟩,
          [.audioContextCreated, .recorderStarted, .recorderStopped,
            .audioContextClosed])

/-- Status tones surfaced to the user (source lines 79-81). -/
inductive StatusTone where
  | neutral
  | success
  | error
deriving DecidableEq, Repr

/-- The upload-time audio handler (source lines 175-200): decode the file;
on success attach the buffer to the matching scene; on failure leave the
scene list unchanged and surface an error tone. -/
def handleAudioUpload (scenes : List Scene) (sceneId : ℕ) (file : AudioData) :
    List Scene × StatusTone :=
  match decodeAudioData file with
  | .ok _ =>
    (scenes.map (fun s =>
      if s.id = sceneId then { s with audio := some file } else s), .success)
  | .error _ => (scenes, .error)

/-- Demo scene with a bound image and no audio (requested 5 s). -/
def sceneA : Scene := ⟨0, 5, true, none⟩

/-- Demo scene with a bound image and a 6 s audio clip (requested 3 s). -/
def sceneB : Scene := ⟨1, 3, true, some (.ok 6)⟩

/-- Demo scene with no bound image. -/
def sceneNoImage : Scene := ⟨2, 4, false, none⟩

/-- Demo scene whose attached audio fails to decode. -/
def sceneBadAudio : Scene := ⟨3, 6, true, some .bad⟩

/-- Demo scene at the minimum requested duration, image bound, no audio. -/
def minScene : Scene := ⟨0, DURATION_MIN, true, none⟩

/-- Demo scene list. -/
def demoScenes : List Scene := [sceneA, sceneB]

/-- Resolution of `sceneA` at sample rate 10. -/
def metaA : SceneMeta := ⟨sceneA, 5, 5, .silent 1 50 10⟩

/-- Resolution of `sceneB` at sample rate 10. -/
def metaB : SceneMeta := ⟨sceneB, 6, 6, .real 6⟩

/-- Resolution of `minScene` at sample rate 10. -/
def minMeta : SceneMeta := ⟨minScene, DURATION_MIN, DURATION_MIN, .silent 1 10 10⟩

/-- Demo resolved segment list. -/
def demoMetas : List SceneMeta := [metaA, metaB]

/-! ### Helper lemmas: the resolver -/

theorem resolveScene_none {sr : ℕ} {s : Scene} (hs : s.audio = none) :
    resolveScene sr s = .ok ⟨s, baseDuration s, baseDuration s,
      .silent 1 (max 1 (Int.toNat ⌊baseDuration s * (sr : ℚ)⌋)) sr⟩ := by
  simp [resolveScene, hs]

theorem resolveScene_some_ok {sr : ℕ} {s : Scene} {d : ℚ}
    (hs : s.audio = some (.ok d)) :
    resolveScene sr s = .ok ⟨s, max (baseDuration s) d, d, .real d⟩ := by
  simp [resolveScene, hs, decodeAudioData]

theorem resolveScene_some_bad {sr : ℕ} {s : Scene} (hs : s.audio = some .bad) :
    resolveScene sr s = .error () := by
  simp [resolveScene, hs, decodeAudioData]

theorem resolveScene_ok_inv {sr : ℕ} {s : Scene} {m : SceneMeta}
    (h : resolveScene sr s = .ok m) :
    (s.audio = none ∧ m = ⟨s, baseDuration s, baseDuration s,
        .silent 1 (max 1 (Int.toNat ⌊baseDuration s * (sr : ℚ)⌋)) sr⟩)
    ∨ (∃ d, s.audio = some (.ok d) ∧ m = ⟨s, max (baseDuration s) d, d, .real d⟩) := by
  cases hs : s.audio with
  | none =>
    left
    rw [resolveScene_none hs] at h
    injection h with h
    exact ⟨rfl, h.symm⟩
  | some ad =>
    cases ad with
    | ok d =>
      right
      rw [resolveScene_some_ok hs] at h
      injection h with h
      exact ⟨d, rfl, h.symm⟩
    | bad =>
      rw [resolveScene_some_bad hs] at h
      exact absurd h (by simp)

theorem resolveScene_duration_min {sr : ℕ} {s : Scene} {m : SceneMeta}
    (h : resolveScene sr s = .ok m) : DURATION_MIN ≤ m.duration := by
  rcases resolveScene_ok_inv h with ⟨_, rfl⟩ | ⟨d, _, rfl⟩
  · exact le_max_right _ _
  · exact le_trans (le_max_right _ _) (le_max_left _ _)

theorem resolveScenes_mem {sr : ℕ} : ∀ {l : List Scene} {ms : List SceneMeta},
    resolveScenes sr l = .ok ms → ∀ {m : SceneMeta}, m ∈ ms →
    ∃ s, resolveScene sr s = .ok m ∧ s ∈ l := by
  intro l
  induction l with
  | nil =>
    intro ms h m hm
    simp [resolveScenes] at h
    subst h
    simp at hm
  | cons s rest ih =>
    intro ms h m hm
    cases hs : resolveScene sr s with
    | error e => simp [resolveScenes, hs] at h
    | ok m0 =>
      cases hr : resolveScenes sr rest with
      | error e => simp [resolveScenes, hs, hr] at h
      | ok ms0 =>
        simp [resolveScenes, hs, hr] at h
        subst h
        rcases List.mem_cons.mp hm with rfl | hm0
        · exact ⟨s, hs, List.mem_cons_self _ _⟩
        · obtain ⟨s0, h1, h2⟩ := ih hr hm0
          exact ⟨s0, h1, List.mem_cons_of_mem _ h2⟩

theorem resolveScenes_duration_min {sr : ℕ} {l : List Scene} {ms : List SceneMeta}
    (h : resolveScenes sr l = .ok ms) : ∀ m ∈ ms, DURATION_MIN ≤ m.duration := by
  intro m hm
  obtain ⟨s, hs, _⟩ := resolveScenes_mem h hm
  exact resolveScene_duration_min hs

theorem resolveScenes_duration_pos {sr : ℕ} {l : List Scene} {ms : List SceneMeta}
    (h : resolveScenes sr l = .ok ms) : ∀ m ∈ ms, 0 < m.duration := by
  intro m hm
  have := resolveScenes_duration_min h m hm
  have h1 : (0 : ℚ) < DURATION_MIN := by norm_num [DURATION_MIN]
  linarith

theorem resolveScenes_length {sr : ℕ} : ∀ {l : List Scene} {ms : List SceneMeta},
    resolveScenes sr l = .ok ms → ms.length = l.length := by
  intro l
  induction l with
  | nil =>
    intro ms h
    simp [resolveScenes] at h
    subst h
    rfl
  | cons s rest ih =>
    intro ms h
    cases hs : resolveScene sr s with
    | error e => simp [resolveScenes, hs] at h
    | ok m0 =>
      cases hr : resolveScenes sr rest with
      | error e => simp [resolveScenes, hs, hr] at h
      | ok ms0 =>
        simp [resolveScenes, hs, hr] at h
        subst h
        simp [ih hr]

theorem resolveScenes_error_of_bad {sr : ℕ} : ∀ {l : List Scene} {s : Scene},
    s ∈ l → s.audio = some .bad → resolveScenes sr l = .error () := by
  intro l
  induction l with
  | nil => intro s hs; simp at hs
  | cons a rest ih =>
    intro s hs hbad
    rcases List.mem_cons.mp hs with rfl | hmem
    · simp [resolveScenes, resolveScene_some_bad hbad]
    · cases ha : resolveScene sr a with
      | error e => simp [resolveScenes, ha]
      | ok m0 => simp [resolveScenes, ha, ih hmem hbad]

/-! ### Helper lemmas: totals and offsets -/

theorem foldl_add_duration : ∀ (ms : List SceneMeta) (a : ℚ),
    ms.foldl (fun acc m => acc + m.duration) a
      = a + (ms.map (fun m => m.duration)).sum := by
  intro ms
  induction ms with
  | nil => intro a; simp
  | cons m rest ih =>
    intro a
    simp [List.foldl_cons, ih (a + m.duration)]
    ring

theorem totalTimelineDuration_eq_sum (ms : List SceneMeta) :
    totalTimelineDuration ms = (ms.map (fun m => m.duration)).sum := by
  simp [totalTimelineDuration, foldl_add_duration]

theorem durations_sum_nonneg {ms : List SceneMeta}
    (h : ∀ m ∈ ms, 0 ≤ m.duration) :
    0 ≤ (ms.map (fun m => m.duration)).sum := by
  apply List.sum_nonneg
  intro x hx
  obtain ⟨m, hm, rfl⟩ := List.mem_map.mp hx
  exact h m hm

theorem offsetAt_zero (ms : List SceneMeta) : offsetAt ms 0 = 0 := by
  simp [offsetAt]

theorem offsetAt_cons_succ (m : SceneMeta) (ms : List SceneMeta) (i : ℕ) :
    offsetAt (m :: ms) (i + 1) = m.duration + offsetAt ms i := by
  simp [offsetAt, List.take_succ_cons]

theorem offsetAt_nonneg {ms : List SceneMeta}
    (h : ∀ m ∈ ms, 0 ≤ m.duration) (i : ℕ) : 0 ≤ offsetAt ms i := by
  apply List.sum_nonneg
  intro x hx
  obtain ⟨m, hm, rfl⟩ := List.mem_map.mp hx
  exact h m (List.take_subset _ _ hm)

theorem audioCursors_length : ∀ (ms : List SceneMeta) (t : ℚ),
    (audioCursors t ms).length = ms.length := by
  intro ms
  induction ms with
  | nil => intro t; rfl
  | cons m rest ih => intro t; simp [audioCursors, ih]

theorem audioCursors_getD : ∀ (ms : List SceneMeta) (t : ℚ) (i : ℕ),
    i < ms.length → (audioCursors t ms).getD i 0 = t + offsetAt ms i := by
  intro ms
  induction ms with
  | nil => intro t i hi; simp at hi
  | cons m rest ih =>
    intro t i hi
    cases i with
    | zero => simp [audioCursors, offsetAt]
    | succ k =>
      have hk : k < rest.length := Nat.lt_of_succ_lt_succ hi
      simp only [audioCursors, List.getD_cons_succ, offsetAt_cons_succ]
      rw [ih (t + m.duration) k hk]
      ring

theorem startOffsets_getD {ms : List SceneMeta} {i : ℕ} (hi : i < ms.length) :
    (startOffsets ms).getD i 0 = offsetAt ms i := by
  rw [startOffsets, audioCursors_getD ms 0 i hi, zero_add]

/-! ### Helper lemmas: the render-loop scan -/

theorem scanSelect_none_of_ge : ∀ (ms : List SceneMeta) (a e : ℚ),
    (∀ m ∈ ms, 0 ≤ m.duration) →
    a + (ms.map (fun m => m.duration)).sum ≤ e →
    scanSelect e a ms = none := by
  intro ms
  induction ms with
  | nil => intro a e _ _; rfl
  | cons m rest ih =>
    intro a e h0 hge
    have hrest : 0 ≤ (rest.map (fun m => m.duration)).sum :=
      durations_sum_nonneg (fun x hx => h0 x (List.mem_cons_of_mem _ hx))
    simp only [List.map_cons, List.sum_cons] at hge
    rw [scanSelect, if_neg]
    · exact ih (a + m.duration) e
        (fun x hx => h0 x (List.mem_cons_of_mem _ hx)) (by linarith)
    · intro hc
      have := hc.2
      linarith

theorem scanSelect_none_of_lt : ∀ (ms : List SceneMeta) (a e : ℚ),
    (∀ m ∈ ms, 0 ≤ m.duration) → e < a →
    scanSelect e a ms = none := by
  intro ms
  induction ms with
  | nil => intro a e _ _; rfl
  | cons m rest ih =>
    intro a e h0 hlt
    have hd : 0 ≤ m.duration := h0 m (List.mem_cons_self _ _)
    rw [scanSelect, if_neg]
    · exact ih (a + m.duration) e
        (fun x hx => h0 x (List.mem_cons_of_mem _ hx)) (by linarith)
    · intro hc
      have := hc.1
      linarith

theorem scanSelect_unique : ∀ (ms : List SceneMeta) (a e : ℚ),
    (∀ m ∈ ms, 0 < m.duration) → a ≤ e →
    e < a + (ms.map (fun m => m.duration)).sum →
    ∃ i, ∃ hi : i < ms.length,
      scanSelect e a ms = some (ms.get ⟨i, hi⟩, a + offsetAt ms i)
      ∧ ∀ j, ∀ hj : j < ms.length,
          ((a + offsetAt ms j ≤ e
              ∧ e < a + offsetAt ms j + (ms.get ⟨j, hj⟩).duration) ↔ j = i) := by
  intro ms
  induction ms with
  | nil =>
    intro a e _ hle hlt
    simp only [List.map_nil, List.sum_nil, add_zero] at hlt
    exact absurd hle (by linarith)
  | cons m rest ih =>
    intro a e hpos hle hlt
    have hposrest : ∀ x ∈ rest, 0 < x.duration :=
      fun x hx => hpos x (List.mem_cons_of_mem _ hx)
    have hnonnegrest : ∀ x ∈ rest, 0 ≤ x.duration :=
      fun x hx => le_of_lt (hposrest x hx)
    by_cases hcase : e < a + m.duration
    · refine ⟨0, Nat.succ_pos _, ?_, ?_⟩
      · rw [scanSelect, if_pos ⟨hle, hcase⟩]
        simp [offsetAt_zero]
      · intro j hj
        cases j with
        | zero =>
          simp only [offsetAt_zero, add_zero, List.get]
          exact iff_of_true ⟨hle, hcase⟩ (by trivial)
        | succ k =>
          constructor
          · intro hcontain
            exfalso
            have hk : k < rest.length := Nat.lt_of_succ_lt_succ hj
            have h1 : a + offsetAt (m :: rest) (k + 1) ≤ e := hcontain.1
            rw [offsetAt_cons_succ] at h1
            have h2 : 0 ≤ offsetAt rest k := offsetAt_nonneg hnonnegrest k
            linarith
          · intro hc
            exact absurd hc (Nat.succ_ne_zero k)
    · push_neg at hcase
      have hle2 : a + m.duration ≤ e := hcase
      simp only [List.map_cons, List.sum_cons] at hlt
      obtain ⟨i, hi, heq, huniq⟩ :=
        ih (a + m.duration) e hposrest hle2 (by linarith)
      refine ⟨i + 1, Nat.succ_lt_succ hi, ?_, ?_⟩
      · rw [scanSelect, if_neg (fun hc => absurd hc.2 (not_lt.mpr hle2))]
        rw [heq, offsetAt_cons_succ]
        simp [add_assoc]
      · intro j hj
        cases j with
        | zero =>
          simp only [offsetAt_zero, add_zero, List.get]
          constructor
          · intro hcontain
            exact absurd hcontain.2 (not_lt.mpr hle2)
          · intro hc
            exact absurd hc.symm (Nat.succ_ne_zero i)
        | succ k =>
          have hk : k < rest.length := Nat.lt_of_succ_lt_succ hj
          have hiff := huniq k hk
          rw [offsetAt_cons_succ]
          constructor
          · intro hcontain
            have : k = i := by
              apply hiff.mp
              refine ⟨by linarith [hcontain.1], ?_⟩
              have h2 := hcontain.2
              have hget : (List.get (m :: rest) ⟨k + 1, hj⟩).duration
                  = (List.get rest ⟨k, hk⟩).duration := rfl
              rw [hget] at h2
              linarith
            rw [this]
          · intro hc
            have hki : k = i := Nat.succ_injective hc
            have hcontain := hiff.mpr hki
            refine ⟨by linarith [hcontain.1], ?_⟩
            have h2 := hcontain.2
            have hget : (List.get (m :: rest) ⟨k + 1, hj⟩).duration
                = (List.get rest ⟨k, hk⟩).duration := rfl
            rw [hget]
            linarith

/-! ### Helper lemmas: last segments, totals, success path -/

theorem offsetAt_succ : ∀ (ms : List SceneMeta) (i : ℕ) (h : i < ms.length),
    offsetAt ms (i + 1) = offsetAt ms i + (ms.get ⟨i, h⟩).duration := by
  intro ms
  induction ms with
  | nil => intro i h; simp at h
  | cons m rest ih =>
    intro i h
    cases i with
    | zero => simp [offsetAt_cons_succ, offsetAt_zero]
    | succ k =>
      have hk : k < rest.length := Nat.lt_of_succ_lt_succ h
      rw [offsetAt_cons_succ, offsetAt_cons_succ, ih k hk]
      show m.duration + (offsetAt rest k + (rest.get ⟨k, hk⟩).duration)
        = m.duration + offsetAt rest k + (rest.get ⟨k, hk⟩).duration
      ring

theorem getLast?_some_of_ne_nil {ms : List SceneMeta} (h : ms ≠ []) :
    ∃ lm, ms.getLast? = some lm ∧ lm ∈ ms :=
  ⟨ms.getLast h, List.getLast?_eq_getLast_of_ne_nil h, List.getLast_mem h⟩

theorem duration_le_sum {ms : List SceneMeta}
    (h0 : ∀ m ∈ ms, 0 ≤ m.duration) {lm : SceneMeta} (hmem : lm ∈ ms) :
    lm.duration ≤ (ms.map (fun m => m.duration)).sum := by
  apply List.single_le_sum
  · intro x hx
    obtain ⟨m, hm, rfl⟩ := List.mem_map.mp hx
    exact h0 m hm
  · exact List.mem_map_of_mem _ hmem

theorem totalTimelineDuration_cons (m : SceneMeta) (ms : List SceneMeta) :
    totalTimelineDuration (m :: ms) = m.duration + totalTimelineDuration ms := by
  simp [totalTimelineDuration_eq_sum, List.map_cons, List.sum_cons]

theorem totalTimelineDuration_pos {sr : ℕ} {l : List Scene} {ms : List SceneMeta}
    (hres : resolveScenes sr l = .ok ms) (hne : ms ≠ []) :
    0 < totalTimelineDuration ms := by
  rw [totalTimelineDuration_eq_sum]
  obtain ⟨m, hm⟩ := List.exists_mem_of_ne_nil ms hne
  have h1 : DURATION_MIN ≤ m.duration := resolveScenes_duration_min hres m hm
  have h2 : m.duration ≤ (ms.map (fun x => x.duration)).sum :=
    duration_le_sum (fun x hx => le_of_lt (resolveScenes_duration_pos hres x hx)) hm
  have h3 : (0 : ℚ) < DURATION_MIN := by norm_num [DURATION_MIN]
  linarith

theorem metas_ne_nil {sr : ℕ} {l : List Scene} {ms : List SceneMeta}
    (hres : resolveScenes sr l = .ok ms) (hl : l ≠ []) : ms ≠ [] := by
  intro hc
  apply hl
  have := resolveScenes_length hres
  rw [hc] at this
  exact List.length_eq_zero.mp this.symm

theorem generateVideo_ok {sr : ℕ} {scenes : List Scene} {metas : List SceneMeta}
    (chunks : List ℕ)
    (hne : scenes.filter (fun s => s.hasImage) ≠ [])
    (hres : resolveScenes sr (scenes.filter (fun s => s.hasImage)) = .ok metas) :
    generateVideo sr scenes chunks
      = (.ok ⟨blobSize chunks⟩,
        [.audioContextCreated, .recorderStarted, .recorderStopped,
          .audioContextClosed]) := by
  have hmne : metas ≠ [] := metas_ne_nil hres hne
  have hpos := totalTimelineDuration_pos hres hmne
  have hempty : (scenes.filter (fun s => s.hasImage)).isEmpty = false := by
    cases hf : scenes.filter (fun s => s.hasImage) with
    | nil => exact absurd hf hne
    | cons a l => rfl
  simp [generateVideo, hempty, hres, not_le.mpr hpos]

/-! ### Helper lemmas: demo evaluations -/

theorem filter_demo : demoScenes.filter (fun s => s.hasImage) = demoScenes := rfl

theorem resolve_sceneA : resolveScene 10 sceneA = .ok metaA := by
  rw [resolveScene_none (s := sceneA) rfl]
  norm_num [baseDuration, sceneA, metaA, DURATION_MIN]
  decide

theorem resolve_sceneB : resolveScene 10 sceneB = .ok metaB := by
  rw [resolveScene_some_ok (s := sceneB) (d := 6) rfl]
  norm_num [baseDuration, sceneB, metaB, DURATION_MIN]

theorem resolve_demo : resolveScenes 10 demoScenes = .ok demoMetas := by
  simp [demoScenes, demoMetas, resolveScenes, resolve_sceneA, resolve_sceneB]

theorem resolve_minScene : resolveScene 10 minScene = .ok minMeta := by
  rw [resolveScene_none (s := minScene) rfl]
  norm_num [baseDuration, minScene, minMeta, DURATION_MIN]
  all_goals decide

theorem resolve_replicate3 :
    resolveScenes 10 (List.replicate 3 minScene) = .ok [minMeta, minMeta, minMeta] := by
  simp [List.replicate, resolveScenes, resolve_minScene]

/-! ### Claim theorems -/

/-- C1: for every scene in the image-filtered render list, the resolved
effective duration equals `max(requestedDuration, MIN_DURATION)` when the
scene has no attached audio, and
`max(requestedDuration, audioDuration, MIN_DURATION)` when its attached
audio buffer decodes to a clip of length `audioDuration`. -/
theorem effectiveDuration_max_rule (sr : ℕ) (scenes : List Scene)
    (metas : List SceneMeta)
    (hres : resolveScenes sr (scenes.filter (fun s => s.hasImage)) = .ok metas)
    (m : SceneMeta) (hm : m ∈ metas) :
    (m.scene.audio = none → m.duration = max m.scene.duration DURATION_MIN)
    ∧ ∀ d : ℚ, m.scene.audio = some (.ok d) →
        m.duration = max m.scene.duration (max d DURATION_MIN) := by
  obtain ⟨s, hs, _⟩ := resolveScenes_mem hres hm
  rcases resolveScene_ok_inv hs with ⟨hnone, rfl⟩ | ⟨d0, hsome, rfl⟩
  · constructor
    · intro _
      show baseDuration s = max s.duration DURATION_MIN
      rfl
    · intro d hd
      have hd0 : s.audio = some (.ok d) := hd
      rw [hnone] at hd0
      exact Option.noConfusion hd0
  · constructor
    · intro h0
      have h0' : s.audio = none := h0
      rw [hsome] at h0'
      exact Option.noConfusion h0'
    · intro d hd
      have hd0 : s.audio = some (.ok d) := hd
      rw [hsome] at hd0
      injection hd0 with hd1
      injection hd1 with hd2
      subst hd2
      show max (max s.duration DURATION_MIN) d0 = max s.duration (max d0 DURATION_MIN)
      rw [max_assoc, max_comm DURATION_MIN d0]

/-- Witness for `effectiveDuration_max_rule` at the demo list: the scene
with a 6 s clip and 3 s requested duration resolves to 6 s. -/
theorem effectiveDuration_max_rule_witness :
    metaB.duration = max metaB.scene.duration (max 6 DURATION_MIN) :=
  (effectiveDuration_max_rule 10 demoScenes demoMetas
    (by rw [filter_demo]; exact resolve_demo) metaB
    (by simp [demoMetas])).2 6 rfl

/-- C2: start offsets of a resolved segment sequence are cumulative and
contiguous (offset 0 is 0, each next offset adds the previous effective
duration), the total timeline duration is the sum of the effective
durations, and resolving `n` audioless minimum-duration scenes yields total
`n * DURATION_MIN`. -/
theorem startOffsets_cumulative :
    (∀ (sr : ℕ) (ready : List Scene) (metas : List SceneMeta),
        resolveScenes sr ready = .ok metas → metas ≠ [] →
          (startOffsets metas).getD 0 0 = 0
          ∧ (∀ i : ℕ, i + 1 < metas.length →
              (startOffsets metas).getD (i + 1) 0
                = (startOffsets metas).getD i 0
                  + (metas.map (fun m => m.duration)).getD i 0)
          ∧ totalTimelineDuration metas = (metas.map (fun m => m.duration)).sum)
    ∧ ∀ (sr n : ℕ) (metas : List SceneMeta),
        resolveScenes sr (List.replicate n minScene) = .ok metas →
        totalTimelineDuration metas = n * DURATION_MIN := by
  constructor
  · intro sr ready metas hres hne
    refine ⟨?_, ?_, totalTimelineDuration_eq_sum metas⟩
    · have h0 : 0 < metas.length := List.length_pos.mpr hne
      rw [startOffsets_getD h0, offsetAt_zero]
    · intro i hi1
      have hi : i < metas.length := Nat.lt_of_succ_lt hi1
      have him : i < (metas.map (fun m => m.duration)).length := by
        rw [List.length_map]; exact hi
      rw [startOffsets_getD hi1, startOffsets_getD hi, offsetAt_succ metas i hi,
        List.getD_eq_get _ _ him, List.get_map]
  · intro sr n
    induction n with
    | zero =>
      intro metas hres
      simp only [List.replicate, resolveScenes] at hres
      injection hres with hres
      subst hres
      simp [totalTimelineDuration]
    | succ k ih =>
      intro metas hres
      have hbase : baseDuration minScene = DURATION_MIN := max_self _
      have hmin := @resolveScene_none sr minScene rfl
      rw [List.replicate_succ] at hres
      simp only [resolveScenes, hmin] at hres
      cases hr : resolveScenes sr (List.replicate k minScene) with
      | error e => rw [hr] at hres; exact absurd hres (by simp)
      | ok ms =>
        rw [hr] at hres
        injection hres with hres
        subst hres
        rw [totalTimelineDuration_cons, ih ms hr]
        show baseDuration minScene + k * DURATION_MIN = (k + 1 : ℕ) * DURATION_MIN
        rw [hbase]
        push_cast
        ring

/-- Witness for `startOffsets_cumulative`: contiguity at the demo list and
the total of three minimum-duration scenes. -/
theorem startOffsets_cumulative_witness :
    ((startOffsets demoMetas).getD 1 0
        = (startOffsets demoMetas).getD 0 0
          + (demoMetas.map (fun m => m.duration)).getD 0 0)
    ∧ totalTimelineDuration [minMeta, minMeta, minMeta] = (3 : ℕ) * DURATION_MIN :=
  ⟨((startOffsets_cumulative.1 10 demoScenes demoMetas resolve_demo
      (by simp [demoMetas])).2.1) 0 (by simp [demoMetas]),
   startOffsets_cumulative.2 10 3 [minMeta, minMeta, minMeta] resolve_replicate3⟩

/-- C6 counterexample: a requested duration of 31 s passes into the
effective-duration computation unchanged, above `DURATION_MAX = 30`; the
core applies no upper clamp. -/
theorem durationClamp_cex :
    baseDuration ⟨4, 31, true, none⟩ = 31
    ∧ ¬ baseDuration ⟨4, 31, true, none⟩ ≤ DURATION_MAX
    ∧ resolveScene 10 ⟨4, 31, true, none⟩
        = .ok ⟨⟨4, 31, true, none⟩, 31, 31, .silent 1 310 10⟩ := by
  refine ⟨?_, ?_, ?_⟩
  · norm_num [baseDuration, DURATION_MIN]
  · norm_num [baseDuration, DURATION_MIN, DURATION_MAX]
  · rw [resolveScene_none (s := ⟨4, 31, true, none⟩) rfl]
    norm_num [baseDuration, DURATION_MIN]
    all_goals decide

/-- C6 amended: the requested duration entering the effective-duration
computation is clamped from below at `DURATION_MIN` only; requests at or
above `DURATION_MAX` pass through unchanged (the upper bound constrains
only the UI slider). -/
theorem baseDuration_clamped_below_only :
    (∀ s : Scene, DURATION_MIN ≤ baseDuration s)
    ∧ ∀ s : Scene, DURATION_MAX ≤ s.duration → baseDuration s = s.duration := by
  constructor
  · intro s
    exact le_max_right _ _
  · intro s h
    have h1 : DURATION_MIN ≤ s.duration := by
      have h2 : DURATION_MIN ≤ DURATION_MAX := by norm_num [DURATION_MIN, DURATION_MAX]
      linarith
    exact max_eq_left h1

/-- Witness for `baseDuration_clamped_below_only` at a 31 s request. -/
theorem baseDuration_clamped_below_only_witness :
    DURATION_MIN ≤ baseDuration ⟨4, 31, true, none⟩
    ∧ baseDuration ⟨4, 31, true, none⟩ = (⟨4, 31, true, none⟩ : Scene).duration :=
  ⟨baseDuration_clamped_below_only.1 _,
   baseDuration_clamped_below_only.2 _
     (by show DURATION_MAX ≤ (31 : ℚ); norm_num [DURATION_MAX])⟩

/-- C9: when the scene list is empty or no scene has a bound image, the
generator returns `NoRenderableScenes` with an empty event trace: no audio
context, recorder or capture resource is ever started. -/
theorem noRenderableScenes_early (sr : ℕ) (scenes : List Scene) (chunks : List ℕ)
    (h : scenes.filter (fun s => s.hasImage) = []) :
    generateVideo sr scenes chunks = (.error .noRenderableScenes, []) := by
  simp [generateVideo, h]

/-- Witness for `noRenderableScenes_early`: a one-scene list without an
image fails early with no events. -/
theorem noRenderableScenes_early_witness :
    generateVideo 10 [sceneNoImage] [3] = (.error .noRenderableScenes, []) :=
  noRenderableScenes_early 10 [sceneNoImage] [3] rfl

/-- C3: over a resolved segment list, the render loop's linear scan is total
and non-overlapping: for elapsed in `[0, total)` it selects exactly the
unique segment whose half-open interval contains elapsed (with local
elapsed `e - startOffset`); for elapsed `>= total` it selects the last
segment with local elapsed clamped to its full effective duration. -/
theorem renderLoop_selection (sr : ℕ) (ready : List Scene)
    (metas : List SceneMeta)
    (hres : resolveScenes sr ready = .ok metas) (hne : metas ≠ []) :
    (∀ e : ℚ, 0 ≤ e → e < totalTimelineDuration metas →
      ∃ i, ∃ hi : i < metas.length,
        renderFrameSelect metas (totalTimelineDuration metas) e
          = some (metas.get ⟨i, hi⟩, offsetAt metas i, e - offsetAt metas i)
        ∧ ∀ j, ∀ hj : j < metas.length,
            ((offsetAt metas j ≤ e
                ∧ e < offsetAt metas j + (metas.get ⟨j, hj⟩).duration) ↔ j = i))
    ∧ ∀ e : ℚ, totalTimelineDuration metas ≤ e →
        ∃ lm, metas.getLast? = some lm
          ∧ renderFrameSelect metas (totalTimelineDuration metas) e
            = some (lm, totalTimelineDuration metas - lm.duration, lm.duration) := by
  have hpos := resolveScenes_duration_pos hres
  have hnonneg : ∀ m ∈ metas, 0 ≤ m.duration := fun m hm => le_of_lt (hpos m hm)
  obtain ⟨lm, hlast, hlmem⟩ := getLast?_some_of_ne_nil hne
  constructor
  · intro e he0 helt
    rw [totalTimelineDuration_eq_sum] at helt
    obtain ⟨i, hi, heq, huniq⟩ :=
      scanSelect_unique metas 0 e hpos he0 (by rw [zero_add]; exact helt)
    simp only [zero_add] at heq huniq
    have hcontain := (huniq i hi).mpr rfl
    refine ⟨i, hi, ?_, huniq⟩
    simp only [renderFrameSelect, hlast, heq]
    have h1 : max 0 (e - offsetAt metas i) = e - offsetAt metas i :=
      max_eq_right (by linarith [hcontain.1])
    have h2 : min (metas.get ⟨i, hi⟩).duration (e - offsetAt metas i)
        = e - offsetAt metas i :=
      min_eq_right (by linarith [hcontain.2])
    rw [h1, h2]
  · intro e hge
    have hscan : scanSelect e 0 metas = none := by
      apply scanSelect_none_of_ge metas 0 e hnonneg
      rw [zero_add, ← totalTimelineDuration_eq_sum]
      exact hge
    refine ⟨lm, hlast, ?_⟩
    simp only [renderFrameSelect, hlast, hscan]
    have hlmd : 0 < lm.duration := hpos lm hlmem
    have hsum : lm.duration ≤ totalTimelineDuration metas := by
      rw [totalTimelineDuration_eq_sum]
      exact duration_le_sum hnonneg hlmem
    have h1 : max 0 (e - (totalTimelineDuration metas - lm.duration))
        = e - (totalTimelineDuration metas - lm.duration) :=
      max_eq_right (by linarith)
    have h2 : min lm.duration (e - (totalTimelineDuration metas - lm.duration))
        = lm.duration :=
      min_eq_left (by linarith)
    rw [h1, h2]

/-- Witness for `renderLoop_selection`: past the end of the 11 s demo
timeline the last segment is selected at its full 6 s local elapsed. -/
theorem renderLoop_selection_witness :
    ∃ lm, demoMetas.getLast? = some lm
      ∧ renderFrameSelect demoMetas (totalTimelineDuration demoMetas) 12
        = some (lm, totalTimelineDuration demoMetas - lm.duration, lm.duration) :=
  (renderLoop_selection 10 demoScenes demoMetas resolve_demo
    (by simp [demoMetas])).2 12
    (by norm_num [totalTimelineDuration, demoMetas, metaA, metaB,
      List.foldl_cons, List.foldl_nil])

/-- C10: a strictly negative elapsed time (timestamp before the recorded
render start) matches no interval in the scan, so the loop's defaults
apply: the LAST segment is selected with local elapsed 0 — not the first
segment. -/
theorem negativeElapsed_selects_last (sr : ℕ) (ready : List Scene)
    (metas : List SceneMeta)
    (hres : resolveScenes sr ready = .ok metas) (hne : metas ≠ [])
    (e : ℚ) (he : e < 0) :
    scanSelect e 0 metas = none
    ∧ ∃ lm, metas.getLast? = some lm
      ∧ renderFrameSelect metas (totalTimelineDuration metas) e
        = some (lm, totalTimelineDuration metas - lm.duration, 0) := by
  have hpos := resolveScenes_duration_pos hres
  have hnonneg : ∀ m ∈ metas, 0 ≤ m.duration := fun m hm => le_of_lt (hpos m hm)
  have hscan : scanSelect e 0 metas = none :=
    scanSelect_none_of_lt metas 0 e hnonneg he
  obtain ⟨lm, hlast, hlmem⟩ := getLast?_some_of_ne_nil hne
  refine ⟨hscan, lm, hlast, ?_⟩
  simp only [renderFrameSelect, hlast, hscan]
  have hsum : lm.duration ≤ totalTimelineDuration metas := by
    rw [totalTimelineDuration_eq_sum]
    exact duration_le_sum hnonneg hlmem
  have h1 : max 0 (e - (totalTimelineDuration metas - lm.duration)) = 0 :=
    max_eq_left (by linarith)
  have h2 : min lm.duration (0 : ℚ) = 0 :=
    min_eq_right (le_of_lt (hpos lm hlmem))
  rw [h1, h2]

/-- Witness for `negativeElapsed_selects_last`: elapsed -2 s on the demo
timeline paints the last segment at local elapsed 0. -/
theorem negativeElapsed_selects_last_witness :
    scanSelect (-2) 0 demoMetas = none
    ∧ ∃ lm, demoMetas.getLast? = some lm
      ∧ renderFrameSelect demoMetas (totalTimelineDuration demoMetas) (-2)
        = some (lm, totalTimelineDuration demoMetas - lm.duration, 0) :=
  negativeElapsed_selects_last 10 demoScenes demoMetas resolve_demo
    (by simp [demoMetas]) (-2) (by norm_num)

/-- C7: every segment's audio start is scheduled at
`epoch + startOffset + LEAD_IN` with the same fixed 0.4 s lead-in, so any
two scheduled start times differ exactly by the difference of the
segments' start offsets. -/
theorem audioSchedule_lead_in (now : ℚ) (metas : List SceneMeta) :
    LEAD_IN = 2/5
    ∧ (∀ i : ℕ, i < metas.length →
        (audioCursors (now + LEAD_IN) metas).getD i 0
          = now + (startOffsets metas).getD i 0 + LEAD_IN)
    ∧ ∀ i j : ℕ, i < metas.length → j < metas.length →
        (audioCursors (now + LEAD_IN) metas).getD j 0
            - (audioCursors (now + LEAD_IN) metas).getD i 0
          = (startOffsets metas).getD j 0 - (startOffsets metas).getD i 0 := by
  refine ⟨rfl, ?_, ?_⟩
  · intro i hi
    rw [audioCursors_getD metas _ i hi, startOffsets_getD hi]
    ring
  · intro i j hi hj
    rw [audioCursors_getD metas _ j hj, audioCursors_getD metas _ i hi,
      startOffsets_getD hi, startOffsets_getD hj]
    ring

/-- Witness for `audioSchedule_lead_in` at the demo list with epoch 3 s. -/
theorem audioSchedule_lead_in_witness :
    (audioCursors ((3 : ℚ) + LEAD_IN) demoMetas).getD 1 0
      = 3 + (startOffsets demoMetas).getD 1 0 + LEAD_IN :=
  (audioSchedule_lead_in 3 demoMetas).2.1 1 (by simp [demoMetas])

/-- C4 counterexample: a run over renderable scenes that records zero
chunks returns a size-0 artifact as a SUCCESS — no `EmptyArtifact`-style
failure exists in the code. -/
theorem emptyArtifact_cex :
    (generateVideo 10 demoScenes []).1 = .ok ⟨0⟩
    ∧ (generateVideo 10 demoScenes []).1 ≠ .error .generateFailed
    ∧ (generateVideo 10 demoScenes []).1 ≠ .error .noRenderableScenes := by
  have h := @generateVideo_ok 10 demoScenes demoMetas []
    (by rw [filter_demo]; simp [demoScenes])
    (by rw [filter_demo]; exact resolve_demo)
  rw [h]
  exact ⟨rfl, by simp, by simp⟩

/-- C4 amended: stopping the capture session with zero recorded chunks
yields an artifact of size 0, and the code nonetheless reports the render
as a success. -/
theorem stopWithoutChunks_success (sr : ℕ) (scenes : List Scene)
    (metas : List SceneMeta)
    (hne : scenes.filter (fun s => s.hasImage) ≠ [])
    (hres : resolveScenes sr (scenes.filter (fun s => s.hasImage)) = .ok metas) :
    blobSize [] = 0 ∧ (generateVideo sr scenes []).1 = .ok ⟨0⟩ := by
  refine ⟨rfl, ?_⟩
  rw [generateVideo_ok [] hne hres]
  rfl

/-- Witness for `stopWithoutChunks_success` on a single-scene list. -/
theorem stopWithoutChunks_success_witness :
    blobSize [] = 0 ∧ (generateVideo 10 [sceneA] []).1 = .ok ⟨0⟩ :=
  stopWithoutChunks_success 10 [sceneA] [metaA]
    (by simp [sceneA])
    (by show resolveScenes 10 [sceneA] = .ok [metaA]
        simp [resolveScenes, resolve_sceneA])

/-- C5 counterexample: a render pass over a good scene plus a scene whose
audio fails to decode aborts entirely with the generic failure; it does
not proceed with that scene silent. -/
theorem audioDecodeFailure_cex :
    (generateVideo 10 [sceneA, sceneBadAudio] [4]).1 = .error .generateFailed := by
  have herr : resolveScenes 10 [sceneA, sceneBadAudio] = .error () :=
    resolveScenes_error_of_bad
      (List.mem_cons_of_mem _ (List.mem_cons_self _ _)) rfl
  have hfilter : [sceneA, sceneBadAudio].filter (fun s => s.hasImage)
      = [sceneA, sceneBadAudio] := rfl
  simp [generateVideo, hfilter, herr]

/-- C5 amended: audio decode failure is scene-scoped only at upload time —
the scene list is unchanged and an error tone is shown, so the scene later
renders silent; during a render pass, a decode failure of any ready
scene's buffer aborts the entire render with the generic failure. -/
theorem audioDecodeFailure_scope :
    (∀ (scenes : List Scene) (sceneId : ℕ),
        handleAudioUpload scenes sceneId .bad = (scenes, .error))
    ∧ ∀ (sr : ℕ) (scenes : List Scene) (chunks : List ℕ) (s : Scene),
        s ∈ scenes.filter (fun x => x.hasImage) → s.audio = some .bad →
        (generateVideo sr scenes chunks).1 = .error .generateFailed := by
  constructor
  · intro scenes sceneId
    rfl
  · intro sr scenes chunks s hmem hbad
    have hfe : (scenes.filter (fun x => x.hasImage)).isEmpty = false := by
      cases hf : scenes.filter (fun x => x.hasImage) with
      | nil => rw [hf] at hmem; exact absurd hmem (List.not_mem_nil s)
      | cons a l => rfl
    have herr := @resolveScenes_error_of_bad sr _ _ hmem hbad
    simp [generateVideo, hfe, herr]

/-- Witness for `audioDecodeFailure_scope`: an upload failure leaves the
list unchanged, while a bad buffer inside a render pass aborts it. -/
theorem audioDecodeFailure_scope_witness :
    handleAudioUpload [sceneA] 7 .bad = ([sceneA], .error)
    ∧ (generateVideo 10 [sceneBadAudio] [4]).1 = .error .generateFailed :=
  ⟨audioDecodeFailure_scope.1 [sceneA] 7,
   audioDecodeFailure_scope.2 10 [sceneBadAudio] [4] sceneBadAudio
     (by show sceneBadAudio ∈ [sceneBadAudio]
         exact List.mem_cons_self _ _) rfl⟩

/-- C8 counterexample: at sample rate 44100, an audioless scene requesting
2.00001 s synthesizes a silent buffer of 88200 frames — exactly 2 s, not
the effective duration. -/
theorem silentBuffer_length_cex :
    resolveScene 44100 ⟨5, 200001/100000, true, none⟩
      = .ok ⟨⟨5, 200001/100000, true, none⟩, 200001/100000, 200001/100000,
          .silent 1 88200 44100⟩
    ∧ (SchedBuffer.silent 1 88200 44100).seconds ≠ (200001/100000 : ℚ) := by
  constructor
  · rw [resolveScene_none (s := ⟨5, 200001/100000, true, none⟩) rfl]
    norm_num [baseDuration, DURATION_MIN]
    all_goals decide
  · norm_num [SchedBuffer.seconds]

/-- C8 amended: for every audioless scene a silent mono buffer at the
context sample rate is synthesized with `max 1 ⌊effectiveDuration * sr⌋`
frames; its length in seconds is the effective duration rounded down to a
whole number of samples — at most the effective duration and within `1/sr`
below it — and the scene's audio length is set to the effective duration,
so the segment still carries a playable buffer. -/
theorem silentBuffer_rounded (sr : ℕ) (s : Scene) (m : SceneMeta)
    (hsr : 0 < sr) (hs : s.audio = none) (hres : resolveScene sr s = .ok m) :
    m.buffer = .silent 1 (max 1 (Int.toNat ⌊m.duration * (sr : ℚ)⌋)) sr
    ∧ m.audioLength = m.duration
    ∧ m.buffer.seconds ≤ m.duration
    ∧ m.duration < m.buffer.seconds + 1 / (sr : ℚ) := by
  rcases resolveScene_ok_inv hres with ⟨_, rfl⟩ | ⟨d0, hsome, _⟩
  swap
  · rw [hs] at hsome
    exact Option.noConfusion hsome
  · have hd1 : (1 : ℚ) ≤ baseDuration s := by
      have h := le_max_right s.duration DURATION_MIN
      simp only [DURATION_MIN] at h
      exact h
    have hsr0 : (1 : ℕ) ≤ sr := hsr
    have hsr1 : (1 : ℚ) ≤ (sr : ℚ) := by exact_mod_cast hsr0
    have hsrpos : (0 : ℚ) < (sr : ℚ) := by linarith
    have hx1 : (1 : ℚ) ≤ baseDuration s * (sr : ℚ) := by
      calc (1 : ℚ) = 1 * 1 := (one_mul 1).symm
        _ ≤ baseDuration s * (sr : ℚ) :=
          mul_le_mul hd1 hsr1 zero_le_one (le_trans zero_le_one hd1)
    have hfl1 : (1 : ℤ) ≤ ⌊baseDuration s * (sr : ℚ)⌋ := by
      rw [Int.le_floor]
      exact_mod_cast hx1
    have h0fl : (0 : ℤ) ≤ ⌊baseDuration s * (sr : ℚ)⌋ := le_trans zero_le_one hfl1
    have htn : (1 : ℕ) ≤ (⌊baseDuration s * (sr : ℚ)⌋).toNat := by omega
    have hmax : max 1 ((⌊baseDuration s * (sr : ℚ)⌋).toNat)
        = (⌊baseDuration s * (sr : ℚ)⌋).toNat := max_eq_right htn
    have hcast : (((⌊baseDuration s * (sr : ℚ)⌋).toNat : ℕ) : ℚ)
        = ((⌊baseDuration s * (sr : ℚ)⌋ : ℤ) : ℚ) := by
      exact_mod_cast Int.toNat_of_nonneg h0fl
    refine ⟨rfl, rfl, ?_, ?_⟩
    · show ((max 1 ((⌊baseDuration s * (sr : ℚ)⌋).toNat) : ℕ) : ℚ) / (sr : ℚ)
        ≤ baseDuration s
      rw [hmax, hcast, div_le_iff hsrpos]
      exact Int.floor_le _
    · show baseDuration s
        < ((max 1 ((⌊baseDuration s * (sr : ℚ)⌋).toNat) : ℕ) : ℚ) / (sr : ℚ)
          + 1 / (sr : ℚ)
      rw [hmax, hcast, div_add_div_same, lt_div_iff hsrpos]
      exact Int.lt_floor_add_one _

/-- Witness for `silentBuffer_rounded` at the demo audioless scene. -/
theorem silentBuffer_rounded_witness :
    metaA.buffer = .silent 1 (max 1 (Int.toNat ⌊metaA.duration * ((10 : ℕ) : ℚ)⌋)) 10
    ∧ metaA.audioLength = metaA.duration
    ∧ metaA.buffer.seconds ≤ metaA.duration
    ∧ metaA.duration < metaA.buffer.seconds + 1 / ((10 : ℕ) : ℚ) :=
  silentBuffer_rounded 10 sceneA metaA (by norm_num) rfl resolve_sceneA

end VideoGen
